import Mathlib

-- Verification development for the financial-data-ecosystem pipeline.
-- The definitions below are shallow embeddings of the bronze (ingestion),
-- silver (normalization) and gold (analytics) stages of the repository.
-- Machine floats are modelled by exact rationals, timestamps by naturals
-- ordered in the same way as the ISO strings of the source, and fallible
-- code by Except / Option values.

namespace FinData

-- ## Bronze stage: src/src/cloud_functions/bronze/main.py

-- A provider response for one HTTP attempt: `none` models a transport
-- exception (requests.exceptions.RequestException), `some (status, body)`
-- an HTTP response with its status code and decoded JSON body.
def max_retries : ℕ := 3

-- Embeds the retry loop of `fetch_market_data_batch`: at most `fuel`
-- further attempts are made, `attempt` counts the attempts already made.
-- The second component records the back-off sleeps performed
-- (`wait_time = (2 ** attempt) * 5` on each 429).
def fetchLoop {α : Type} (resp : ℕ → Option (ℕ × List α)) : ℕ → ℕ → List α × List ℕ
  | _, 0 => ([], [])
  | attempt, fuel + 1 =>
    match resp attempt with
    | none => ([], [])
    | some (status, body) =>
      if status = 200 then (body, [])
      else if status = 429 then
        let rest := fetchLoop resp (attempt + 1) fuel
        (rest.1, 2 ^ attempt * 5 :: rest.2)
      else ([], [])

-- `fetch_market_data_batch` returns the fetched records of one batch and
-- the list of back-off sleeps; a failed batch yields `[]`.
def fetch_market_data_batch {α : Type} (resp : ℕ → Option (ℕ × List α)) : List α × List ℕ :=
  fetchLoop resp 0 max_retries

-- Embeds the batch loop of `process_ingestion`: `all_market_data` is the
-- concatenation of the per-batch results, a failed batch contributing `[]`.
def ingestCollect {α : Type} (batchResults : List (List α)) : List α :=
  batchResults.flatMap id

-- Embeds the return value of `process_ingestion` after the batch loop:
-- the (message, HTTP status) pair of the cloud function.
def processIngestionResult {α : Type} (all_market_data : List α)
    (output_filename : String) (storageOk : Bool) : String × ℕ :=
  if all_market_data.isEmpty then ("Warning: No data collected.", 200)
  else if storageOk then ("Success: " ++ output_filename, 200)
  else ("Storage Error", 500)

-- Embeds the outcome of `process_data_cleaning` in
-- src/src/cloud_functions/silver/main.py: every exception of the body is
-- caught, logged and swallowed, so the cloud function always returns
-- normally (HTTP 200) whether the body succeeded or failed.
def processDataCleaningReturn : Except String Unit → ℕ
  | Except.ok _ => 200
  | Except.error _ => 200

-- ## Silver stage: src/src/pipeline/silver/clean.py

-- One element of a raw bronze JSON payload (a RawSnapshotRecord).
structure RawRecord where
  id : String
  symbol : String
  name : String
  current_price : ℚ
  market_cap : ℚ
  market_cap_rank : ℕ
  total_volume : ℚ
  high_24h : ℚ
  low_24h : ℚ
  price_change_percentage_24h : ℚ
  circulating_supply : ℚ
  total_supply : ℚ
  max_supply : Option ℚ
  ath : ℚ
  ath_change_percentage : ℚ
  ath_date : String
  last_updated : ℕ
  ingested_timestamp : ℕ
  deriving DecidableEq

-- The columns of the local silver output that are pure functions of the
-- raw input (everything except the injected `processed_at`).
structure CanonicalFields where
  coin_id : String
  symbol : String
  name : String
  current_price : ℚ
  market_cap : ℚ
  market_cap_rank : ℕ
  fully_diluted_valuation : ℚ
  total_volume : ℚ
  high_24h : ℚ
  low_24h : ℚ
  price_change_percentage_24h : ℚ
  circulating_supply : ℚ
  total_supply : ℚ
  max_supply : Option ℚ
  ath : ℚ
  ath_change_percentage : ℚ
  ath_date : String
  source_updated_at : ℕ
  ingested_timestamp : ℕ
  deriving DecidableEq

-- A row of `cleaned_market_data.parquet` as produced by the local silver
-- query in process_cleaning (clean.py).
structure CanonicalRecord extends CanonicalFields where
  processed_at : ℕ
  deriving DecidableEq

-- The business columns of `canonicalOf` (the projection of the silver
-- SELECT without the injected `processed_at` literal).
def cleanFields (r : RawRecord) : CanonicalFields :=
  { coin_id := r.id
    symbol := r.symbol
    name := r.name
    current_price := r.current_price
    market_cap := r.market_cap
    market_cap_rank := r.market_cap_rank
    fully_diluted_valuation :=
      match r.max_supply with
      | none => r.current_price * r.total_supply
      | some m => r.current_price * m
    total_volume := r.total_volume
    high_24h := r.high_24h
    low_24h := r.low_24h
    price_change_percentage_24h := r.price_change_percentage_24h
    circulating_supply := r.circulating_supply
    total_supply := r.total_supply
    max_supply := r.max_supply
    ath := r.ath
    ath_change_percentage := r.ath_change_percentage
    ath_date := r.ath_date
    source_updated_at := r.last_updated
    ingested_timestamp := r.ingested_timestamp }

-- The full projection of the local silver SELECT: renames `id` to
-- `coin_id` and `last_updated` to `source_updated_at`, computes the safe
-- fully-diluted valuation (`CASE WHEN max_supply IS NULL THEN
-- current_price * total_supply ELSE current_price * max_supply END`) and
-- injects the `processed_at` literal.
def canonicalOf (r : RawRecord) (processed_at : ℕ) : CanonicalRecord :=
  { toCanonicalFields := cleanFields r
    processed_at := processed_at }

-- `ORDER BY source_updated_at DESC` as a relation on canonical records.
def newerSource (a b : CanonicalRecord) : Prop :=
  b.source_updated_at ≤ a.source_updated_at

instance : DecidableRel newerSource :=
  fun a b => inferInstanceAs (Decidable (b.source_updated_at ≤ a.source_updated_at))

instance : IsTotal CanonicalRecord newerSource :=
  ⟨fun a b => le_total b.source_updated_at a.source_updated_at⟩

instance : IsTrans CanonicalRecord newerSource :=
  ⟨fun _ _ _ hab hbc => le_trans hbc hab⟩

-- Embeds `process_cleaning` of clean.py: `SELECT DISTINCT <columns> FROM
-- read_json_auto(...) ORDER BY source_updated_at DESC` with the run's
-- processing time injected as `processed_at`.
def process_cleaning (raws : List RawRecord) (processing_time : ℕ) : List CanonicalRecord :=
  List.insertionSort newerSource ((raws.map (fun r => canonicalOf r processing_time)).dedup)

-- ## Silver stage, cloud variant: src/src/cloud_functions/silver/main.py

-- The columns of the cloud silver output other than the injected
-- `ingested_at` (the cloud query has no `processed_at` column and stamps
-- `current_timestamp as ingested_at` instead).
structure CloudCanonicalFields where
  coin_id : String
  symbol : String
  name : String
  current_price : ℚ
  market_cap : ℚ
  market_cap_rank : ℕ
  fully_diluted_valuation : ℚ
  total_volume : ℚ
  high_24h : ℚ
  low_24h : ℚ
  price_change_percentage_24h : ℚ
  circulating_supply : ℚ
  total_supply : ℚ
  max_supply : Option ℚ
  ath : ℚ
  ath_change_percentage : ℚ
  ath_date : String
  source_updated_at : ℕ
  deriving DecidableEq

-- A row of the cloud `cleaned_market_data.parquet`.
structure CloudCanonicalRecord extends CloudCanonicalFields where
  ingested_at : ℕ
  deriving DecidableEq

-- The business columns of the cloud silver SELECT.
def cloudCleanFields (r : RawRecord) : CloudCanonicalFields :=
  { coin_id := r.id
    symbol := r.symbol
    name := r.name
    current_price := r.current_price
    market_cap := r.market_cap
    market_cap_rank := r.market_cap_rank
    fully_diluted_valuation :=
      match r.max_supply with
      | none => r.current_price * r.total_supply
      | some m => r.current_price * m
    total_volume := r.total_volume
    high_24h := r.high_24h
    low_24h := r.low_24h
    price_change_percentage_24h := r.price_change_percentage_24h
    circulating_supply := r.circulating_supply
    total_supply := r.total_supply
    max_supply := r.max_supply
    ath := r.ath
    ath_change_percentage := r.ath_change_percentage
    ath_date := r.ath_date
    source_updated_at := r.last_updated }

-- The projection of the cloud silver SELECT, with the query evaluation
-- time attached as `ingested_at` (`current_timestamp as ingested_at`).
def cloudCanonicalOf (r : RawRecord) (now : ℕ) : CloudCanonicalRecord :=
  { toCloudCanonicalFields := cloudCleanFields r
    ingested_at := now }

def newerSourceCloud (a b : CloudCanonicalRecord) : Prop :=
  b.source_updated_at ≤ a.source_updated_at

instance : DecidableRel newerSourceCloud :=
  fun a b => inferInstanceAs (Decidable (b.source_updated_at ≤ a.source_updated_at))

instance : IsTotal CloudCanonicalRecord newerSourceCloud :=
  ⟨fun a b => le_total b.source_updated_at a.source_updated_at⟩

instance : IsTrans CloudCanonicalRecord newerSourceCloud :=
  ⟨fun _ _ _ hab hbc => le_trans hbc hab⟩

-- Embeds `process_data_cleaning` of the cloud silver function: same
-- DISTINCT / ORDER BY query, but stamping `ingested_at` with the time of
-- this normalization run.
def process_data_cleaning (raws : List RawRecord) (now : ℕ) : List CloudCanonicalRecord :=
  List.insertionSort newerSourceCloud ((raws.map (fun r => cloudCanonicalOf r now)).dedup)

-- ## Gold stage, rolling analytics:
-- src/src/cloud_functions/gold/main.py and src/src/pipeline/gold/analyze.py

def WINDOW_SIZE : ℕ := 7

def RSI_PERIOD : ℕ := 14

def RETENTION_N : ℕ := 500

-- `prices` is one asset's current_price column ordered ascending by
-- source_updated_at (the `PARTITION BY coin_id ORDER BY source_updated_at`
-- frame of the window functions); `priceAt prices i` is row `i`.
def priceAt (prices : List ℚ) (i : ℕ) : ℚ := prices.getD i 0

-- `current_price - LAG(current_price) OVER (...)`: NULL (none) on the
-- first row of the partition.
def price_diff (prices : List ℚ) (i : ℕ) : Option ℚ :=
  if i = 0 then none else some (priceAt prices i - priceAt prices (i - 1))

-- `CASE WHEN price_diff > 0 THEN price_diff ELSE 0 END`; a NULL
-- price_diff does not satisfy `price_diff > 0`, so it falls to the ELSE.
def gainTerm (prices : List ℚ) (i : ℕ) : ℚ :=
  match price_diff prices i with
  | some d => if 0 < d then d else 0
  | none => 0

-- `CASE WHEN price_diff < 0 THEN ABS(price_diff) ELSE 0 END`.
def lossTerm (prices : List ℚ) (i : ℕ) : ℚ :=
  match price_diff prices i with
  | some d => if d < 0 then -d else 0
  | none => 0

-- Row indices of the frame `ROWS BETWEEN p - 1 PRECEDING AND CURRENT ROW`
-- at row `i`: the last `min p (i + 1)` indices up to and including `i`.
def windowIdx (p i : ℕ) : List ℕ := List.range' (i + 1 - p) (min p (i + 1))

-- `AVG(f) OVER (... ROWS BETWEEN p - 1 PRECEDING AND CURRENT ROW)`; the
-- averaged expressions are never NULL, so the divisor is the frame size.
def windowAvg (f : ℕ → ℚ) (p i : ℕ) : ℚ :=
  ((windowIdx p i).map f).sum / ((min p (i + 1) : ℕ) : ℚ)

def sma_7d (prices : List ℚ) (i : ℕ) : ℚ := windowAvg (priceAt prices) WINDOW_SIZE i

def avg_gain (prices : List ℚ) (i : ℕ) : ℚ := windowAvg (gainTerm prices) RSI_PERIOD i

def avg_loss (prices : List ℚ) (i : ℕ) : ℚ := windowAvg (lossTerm prices) RSI_PERIOD i

-- `CASE WHEN avg_loss = 0 THEN 100 ELSE 100 - (100 / (1 + (avg_gain /
-- avg_loss))) END as rsi_14d`.
def rsi_14d (prices : List ℚ) (i : ℕ) : ℚ :=
  if avg_loss prices i = 0 then 100
  else 100 - 100 / (1 + avg_gain prices i / avg_loss prices i)

inductive Signal where
  | BUY
  | SELL
  | WAIT
  deriving DecidableEq

-- The signal CASE of the gold cloud function: BUY when the price is
-- strictly below the 7-row SMA and rsi_14d is strictly below 30, SELL
-- when it is strictly above the SMA and rsi_14d strictly above 70, WAIT
-- otherwise.
def signal (prices : List ℚ) (i : ℕ) : Signal :=
  if priceAt prices i < sma_7d prices i ∧ rsi_14d prices i < 30 then Signal.BUY
  else if sma_7d prices i < priceAt prices i ∧ 70 < rsi_14d prices i then Signal.SELL
  else Signal.WAIT

-- ## Gold stage, state merge and prune (src/src/cloud_functions/gold/main.py)

-- One row of the gold state restricted to `common_columns` (the columns
-- re-read from the state on the next run).
structure GoldRow where
  coin_id : String
  symbol : String
  name : String
  current_price : ℚ
  market_cap : ℚ
  market_cap_rank : ℕ
  fully_diluted_valuation : ℚ
  total_volume : ℚ
  high_24h : ℚ
  low_24h : ℚ
  price_change_percentage_24h : ℚ
  circulating_supply : ℚ
  total_supply : ℚ
  max_supply : Option ℚ
  ath : ℚ
  ath_change_percentage : ℚ
  ath_date : String
  source_updated_at : ℕ
  ingested_file : String
  processed_at : ℕ
  deriving DecidableEq

-- `ORDER BY source_updated_at DESC` on gold rows.
def newerRow (a b : GoldRow) : Prop := b.source_updated_at ≤ a.source_updated_at

instance : DecidableRel newerRow :=
  fun a b => inferInstanceAs (Decidable (b.source_updated_at ≤ a.source_updated_at))

instance : IsTotal GoldRow newerRow :=
  ⟨fun a b => le_total b.source_updated_at a.source_updated_at⟩

instance : IsTrans GoldRow newerRow :=
  ⟨fun _ _ _ hab hbc => le_trans hbc hab⟩

-- The merge and dedup step: `raw_combined` is history UNION ALL new data,
-- and `deduplicated_data AS (SELECT DISTINCT * FROM raw_combined)` removes
-- exact duplicate rows.
def dedup_union (existing incoming : List GoldRow) : List GoldRow :=
  (existing ++ incoming).dedup

-- The prune step for one asset: `QUALIFY ROW_NUMBER() OVER (PARTITION BY
-- coin_id ORDER BY source_updated_at DESC) <= n` keeps, of each asset's
-- rows, the first `n` in descending source_updated_at order.
def pruneAsset (n : ℕ) (rows : List GoldRow) : List GoldRow :=
  (List.insertionSort newerRow rows).take n

-- The distinct asset ids occurring in a set of rows (the partitions).
def assetIds (rows : List GoldRow) : List String :=
  (rows.map (fun r => r.coin_id)).dedup

-- `merge_and_prune` of the HistoryStore: dedup the union of existing and
-- incoming rows, then keep per asset the `retention_n` most recent rows by
-- source_updated_at. The gold cloud function runs it with retention 500.
def merge_and_prune (existing incoming : List GoldRow) (retention_n : ℕ) : List GoldRow :=
  (assetIds (dedup_union existing incoming)).flatMap
    (fun c => pruneAsset retention_n
      ((dedup_union existing incoming).filter (fun r => r.coin_id == c)))

-- ## Gold stage, local driver (src/src/pipeline/gold/analyze.py)

-- `ORDER BY source_updated_at` ascending (the window frame order).
def olderRow (a b : GoldRow) : Prop := a.source_updated_at ≤ b.source_updated_at

instance : DecidableRel olderRow :=
  fun a b => inferInstanceAs (Decidable (a.source_updated_at ≤ b.source_updated_at))

instance : IsTotal GoldRow olderRow :=
  ⟨fun a b => le_total a.source_updated_at b.source_updated_at⟩

instance : IsTrans GoldRow olderRow :=
  ⟨fun _ _ _ hab hbc => le_trans hab hbc⟩

-- The analytics over one asset's partition: order its rows ascending by
-- source_updated_at and attach sma_7d, rsi_14d and the signal of each row.
def analyzeAsset (rows : List GoldRow) : List (GoldRow × ℚ × ℚ × Signal) :=
  let sorted := List.insertionSort olderRow rows
  let prices := sorted.map (fun r => r.current_price)
  sorted.enum.map (fun p => (p.2, sma_7d prices p.1, rsi_14d prices p.1, signal prices p.1))

-- Embeds the control flow of `process_analysis` in analyze.py:
-- `get_source_file` raises FileNotFoundError when the silver file is
-- absent, and `process_analysis` re-raises it (`except ... raise error`),
-- so no output state file is produced; with a present silver file the
-- analytical query runs per asset partition.
def process_analysis_run (silver_file : Option (List GoldRow)) :
    Except String (List (GoldRow × ℚ × ℚ × Signal)) :=
  match silver_file with
  | none => Except.error "No Silver file found. Run cleaning first."
  | some rows =>
    Except.ok ((assetIds rows).flatMap (fun c => analyzeAsset (rows.filter (fun r => r.coin_id == c))))

-- ## Sample records used by concrete witnesses and counterexamples

-- A raw snapshot with a NULL max_supply (an infinite-supply asset).
def sampleRaw1 : RawRecord :=
  { id := "ethereum", symbol := "eth", name := "Ethereum", current_price := 3,
    market_cap := 6, market_cap_rank := 2, total_volume := 2, high_24h := 4,
    low_24h := 2, price_change_percentage_24h := 1, circulating_supply := 2,
    total_supply := 2, max_supply := none, ath := 5, ath_change_percentage := 0,
    ath_date := "2021-11-10", last_updated := 10, ingested_timestamp := 9 }

-- A raw snapshot with a present max_supply.
def sampleRaw2 : RawRecord :=
  { id := "bitcoin", symbol := "btc", name := "Bitcoin", current_price := 4,
    market_cap := 8, market_cap_rank := 1, total_volume := 3, high_24h := 5,
    low_24h := 3, price_change_percentage_24h := 2, circulating_supply := 19,
    total_supply := 19, max_supply := some 21, ath := 7, ath_change_percentage := 1,
    ath_date := "2021-11-10", last_updated := 11, ingested_timestamp := 9 }

-- A gold state row.
def sampleRowA : GoldRow :=
  { coin_id := "bitcoin", symbol := "btc", name := "Bitcoin", current_price := 3,
    market_cap := 6, market_cap_rank := 1, fully_diluted_valuation := 9,
    total_volume := 2, high_24h := 4, low_24h := 2, price_change_percentage_24h := 1,
    circulating_supply := 2, total_supply := 3, max_supply := none, ath := 5,
    ath_change_percentage := 0, ath_date := "2021-11-10", source_updated_at := 10,
    ingested_file := "raw_prices_1.json", processed_at := 100 }

-- Same natural key (coin_id, source_updated_at) as sampleRowA but a later
-- processed_at: a reprocessed duplicate of the same snapshot.
def sampleRowB : GoldRow :=
  { sampleRowA with processed_at := 200 }

-- Same asset as sampleRowA but a more recent source_updated_at.
def sampleRowC : GoldRow :=
  { sampleRowA with source_updated_at := 20, processed_at := 150 }

-- Descending source order on the pure business columns of the silver
-- outputs (used to factor the silver queries through their pure part).
def newerFields (a b : CanonicalFields) : Prop :=
  b.source_updated_at ≤ a.source_updated_at

instance : DecidableRel newerFields :=
  fun a b => inferInstanceAs (Decidable (b.source_updated_at ≤ a.source_updated_at))

def newerFieldsCloud (a b : CloudCanonicalFields) : Prop :=
  b.source_updated_at ≤ a.source_updated_at

instance : DecidableRel newerFieldsCloud :=
  fun a b => inferInstanceAs (Decidable (b.source_updated_at ≤ a.source_updated_at))

-- ## Theorems

-- ### Helper lemmas for the rolling analytics

lemma gainTerm_nonneg (prices : List ℚ) (i : ℕ) : 0 ≤ gainTerm prices i := by
  unfold gainTerm
  cases hpd : price_diff prices i with
  | none => exact le_rfl
  | some d =>
    simp only [hpd]
    split_ifs with h0
    · exact le_of_lt h0
    · exact le_rfl

lemma lossTerm_nonneg (prices : List ℚ) (i : ℕ) : 0 ≤ lossTerm prices i := by
  unfold lossTerm
  cases hpd : price_diff prices i with
  | none => exact le_rfl
  | some d =>
    simp only [hpd]
    split_ifs with h0
    · linarith
    · exact le_rfl

lemma windowAvg_nonneg (f : ℕ → ℚ) (p i : ℕ) (hf : ∀ j, 0 ≤ f j) :
    0 ≤ windowAvg f p i := by
  unfold windowAvg
  apply div_nonneg
  · apply List.sum_nonneg
    intro x hx
    obtain ⟨j, _, rfl⟩ := List.mem_map.1 hx
    exact hf j
  · exact Nat.cast_nonneg _

lemma avg_gain_nonneg (prices : List ℚ) (i : ℕ) : 0 ≤ avg_gain prices i :=
  windowAvg_nonneg _ _ _ (gainTerm_nonneg prices)

lemma avg_loss_nonneg (prices : List ℚ) (i : ℕ) : 0 ≤ avg_loss prices i :=
  windowAvg_nonneg _ _ _ (lossTerm_nonneg prices)

lemma priceAt_replicate {n j : ℕ} {c : ℚ} (h : j < n) :
    priceAt (List.replicate n c) j = c := by
  simp [priceAt, List.getD, h]

lemma lossTerm_replicate {n j : ℕ} {c : ℚ} (h : j < n) :
    lossTerm (List.replicate n c) j = 0 := by
  unfold lossTerm price_diff
  by_cases h0 : j = 0
  · simp [h0]
  · have hj : j - 1 < n := lt_of_le_of_lt (Nat.sub_le j 1) h
    simp [h0, priceAt_replicate h, priceAt_replicate hj]

lemma avg_loss_replicate {n j : ℕ} {c : ℚ} (h : j < n) :
    avg_loss (List.replicate n c) j = 0 := by
  unfold avg_loss windowAvg
  have hz : ∀ x ∈ (windowIdx RSI_PERIOD j).map (lossTerm (List.replicate n c)), x = 0 := by
    intro x hx
    obtain ⟨k, hk, rfl⟩ := List.mem_map.1 hx
    have hkj : k ≤ j := by
      simp only [windowIdx, RSI_PERIOD, List.mem_range'] at hk
      omega
    exact lossTerm_replicate (lt_of_le_of_lt hkj h)
  rw [List.sum_eq_zero hz, zero_div]

-- ### C4: rsi_14d stays in [0, 100]

/-- C4: for every price sequence and every position, rsi_14d lies in
[0, 100]; it equals 100 exactly when the rolling average loss is zero
(in particular on an all-equal price sequence, where every price
difference vanishes), and otherwise it equals
100 - 100 / (1 + avg_gain / avg_loss) with avg_gain and avg_loss the
rolling means of the positive and negated-negative price differences over
the RSI_PERIOD = 14 window. -/
theorem rsi_range (prices : List ℚ) (i : ℕ) (h : i < prices.length) :
    (0 ≤ rsi_14d prices i ∧ rsi_14d prices i ≤ 100) ∧
    (avg_loss prices i = 0 → rsi_14d prices i = 100) ∧
    (avg_loss prices i ≠ 0 →
      rsi_14d prices i = 100 - 100 / (1 + avg_gain prices i / avg_loss prices i)) ∧
    ∀ (c : ℚ) (n j : ℕ), j < n → rsi_14d (List.replicate n c) j = 100 := by
  refine ⟨?_, ?_, ?_, ?_⟩
  · unfold rsi_14d
    split_ifs with hl
    · norm_num
    · have hg : 0 ≤ avg_gain prices i := avg_gain_nonneg prices i
      have hlpos : 0 < avg_loss prices i :=
        lt_of_le_of_ne (avg_loss_nonneg prices i) (Ne.symm hl)
      have hgl : 0 ≤ avg_gain prices i / avg_loss prices i := div_nonneg hg hlpos.le
      have hd1 : (1 : ℚ) ≤ 1 + avg_gain prices i / avg_loss prices i := by linarith
      have hle : 100 / (1 + avg_gain prices i / avg_loss prices i) ≤ 100 :=
        div_le_self (by norm_num) hd1
      have hpos : 0 < 100 / (1 + avg_gain prices i / avg_loss prices i) :=
        div_pos (by norm_num) (by linarith)
      constructor <;> linarith
  · intro hl
    unfold rsi_14d
    exact if_pos hl
  · intro hl
    unfold rsi_14d
    exact if_neg hl
  · intro c n j hj
    unfold rsi_14d
    rw [avg_loss_replicate hj]
    simp

/-- Witness for C4 at the concrete two-point sequence [1, 2] (position 1)
and the constant sequence replicate 3 5 (position 1). -/
theorem rsi_range_witness :
    (0 ≤ rsi_14d [1, 2] 1 ∧ rsi_14d [1, 2] 1 ≤ 100) ∧
    rsi_14d (List.replicate 3 (5 : ℚ)) 1 = 100 :=
  ⟨(rsi_range [1, 2] 1 (by decide)).1,
   (rsi_range [1, 2] 1 (by decide)).2.2.2 5 3 1 (by decide)⟩

-- ### C1: the signal rule and its two spec scenarios

/-- C1: at every position of the analytics output the signal is BUY
exactly when the price is strictly below sma_7d and rsi_14d is strictly
below 30, SELL exactly when the price is strictly above sma_7d and
rsi_14d is strictly above 70, and WAIT in every other case; moreover a
flat 7-point history at 100 ending in a spike to 200 has
sma_7d = 800 / 7 (≈ 114.3) and signal SELL at the last record, and the
same history ending in a drop to 50 has sma_7d = 650 / 7 (≈ 92.9) and
signal BUY. -/
theorem signal_rule (prices : List ℚ) (i : ℕ) (h : i < prices.length) :
    (signal prices i = Signal.BUY ↔
      priceAt prices i < sma_7d prices i ∧ rsi_14d prices i < 30) ∧
    (signal prices i = Signal.SELL ↔
      sma_7d prices i < priceAt prices i ∧ 70 < rsi_14d prices i) ∧
    (signal prices i = Signal.WAIT ↔
      ¬(priceAt prices i < sma_7d prices i ∧ rsi_14d prices i < 30) ∧
      ¬(sma_7d prices i < priceAt prices i ∧ 70 < rsi_14d prices i)) ∧
    sma_7d [100, 100, 100, 100, 100, 100, 200] 6 = 800 / 7 ∧
    signal [100, 100, 100, 100, 100, 100, 200] 6 = Signal.SELL ∧
    sma_7d [100, 100, 100, 100, 100, 100, 50] 6 = 650 / 7 ∧
    signal [100, 100, 100, 100, 100, 100, 50] 6 = Signal.BUY := by
  refine ⟨?_, ?_, ?_, ?_, ?_, ?_, ?_⟩
  · unfold signal
    split_ifs with h1 h2
    · exact iff_of_true rfl h1
    · exact iff_of_false (by decide) h1
    · exact iff_of_false (by decide) h1
  · unfold signal
    split_ifs with h1 h2
    · exact iff_of_false (by decide) (fun hx => absurd hx.1 (lt_asymm h1.1))
    · exact iff_of_true rfl h2
    · exact iff_of_false (by decide) h2
  · unfold signal
    split_ifs with h1 h2
    · exact iff_of_false (by decide) (fun hx => hx.1 h1)
    · exact iff_of_false (by decide) (fun hx => hx.2 h2)
    · exact iff_of_true rfl ⟨h1, h2⟩
  · norm_num [sma_7d, windowAvg, windowIdx, WINDOW_SIZE, priceAt, List.range']
  · norm_num [signal, sma_7d, rsi_14d, avg_loss, avg_gain, windowAvg, windowIdx, WINDOW_SIZE,
      RSI_PERIOD, lossTerm, gainTerm, price_diff, priceAt, List.range']
  · norm_num [sma_7d, windowAvg, windowIdx, WINDOW_SIZE, priceAt, List.range']
  · norm_num [signal, sma_7d, rsi_14d, avg_loss, avg_gain, windowAvg, windowIdx, WINDOW_SIZE,
      RSI_PERIOD, lossTerm, gainTerm, price_diff, priceAt, List.range']

/-- Witness for C1: the two spec scenarios extracted at position 6 of the
7-point histories. -/
theorem signal_rule_witness :
    signal [100, 100, 100, 100, 100, 100, 200] 6 = Signal.SELL ∧
    signal [100, 100, 100, 100, 100, 100, 50] 6 = Signal.BUY :=
  ⟨(signal_rule [100, 100, 100, 100, 100, 100, 200] 6 (by decide)).2.2.2.2.1,
   (signal_rule [100, 100, 100, 100, 100, 100, 50] 6 (by decide)).2.2.2.2.2.2⟩

-- ### C5: the null-aware fully-diluted valuation

/-- C5: the normalizer computes fully_diluted_valuation as
current_price * total_supply when max_supply is NULL, and as
current_price * max_supply when max_supply is present. -/
theorem fdv_null_aware (r : RawRecord) (t : ℕ) :
    (r.max_supply = none →
      (canonicalOf r t).fully_diluted_valuation = r.current_price * r.total_supply) ∧
    ∀ m : ℚ, r.max_supply = some m →
      (canonicalOf r t).fully_diluted_valuation = r.current_price * m := by
  constructor
  · intro hm
    simp [canonicalOf, cleanFields, hm]
  · intro m hm
    simp [canonicalOf, cleanFields, hm]

/-- Witness for C5: sampleRaw1 has a NULL max_supply, sampleRaw2 has
max_supply 21. -/
theorem fdv_null_aware_witness :
    (canonicalOf sampleRaw1 5).fully_diluted_valuation
        = sampleRaw1.current_price * sampleRaw1.total_supply ∧
    (canonicalOf sampleRaw2 5).fully_diluted_valuation
        = sampleRaw2.current_price * 21 :=
  ⟨(fdv_null_aware sampleRaw1 5).1 rfl, (fdv_null_aware sampleRaw2 5).2 21 rfl⟩

-- ### C9: analytics with no input raises instead of no-op

/-- C9 (divergence witness): invoked with no silver input file (and hence
no history), process_analysis raises FileNotFoundError — the run is an
error and produces no output state, contradicting the claimed no-op. -/
theorem process_analysis_missing_input_errors :
    process_analysis_run none
      = Except.error "No Silver file found. Run cleaning first." := rfl

-- ### C7: retry, backoff and graceful degradation of the batch fetcher

/-- C7: a batch whose attempts are all rate-limited (HTTP 429) is retried
up to max_retries = 3 times with exponential backoff sleeps
5 * 2 ^ attempt (5, 10, 20 seconds) and then fails, contributing no
records; a first response that is neither 2xx nor 429 fails the batch
immediately, with no retry and no backoff sleep; and in the
graceful-degradation batch loop a failed batch contributes zero records
while every remaining batch is still processed. -/
theorem fetch_retry_graceful {α : Type} (resp : ℕ → Option (ℕ × List α)) :
    ((∀ a, a < max_retries → ∃ body, resp a = some (429, body)) →
      fetch_market_data_batch resp = ([], [5, 10, 20])) ∧
    (∀ status body, resp 0 = some (status, body) → ¬(200 ≤ status ∧ status < 300) →
      status ≠ 429 → fetch_market_data_batch resp = ([], [])) ∧
    ∀ (results : List (List α)) (i : ℕ) (h : i < results.length),
      results.get ⟨i, h⟩ = [] → ingestCollect results = ingestCollect (results.eraseIdx i) := by
  refine ⟨?_, ?_, ?_⟩
  · intro hall
    obtain ⟨b0, h0⟩ := hall 0 (by norm_num [max_retries])
    obtain ⟨b1, h1⟩ := hall 1 (by norm_num [max_retries])
    obtain ⟨b2, h2⟩ := hall 2 (by norm_num [max_retries])
    simp [fetch_market_data_batch, max_retries, fetchLoop, h0, h1, h2]
  · intro status body h0 h2xx h429
    have h200 : status ≠ 200 := by
      intro he
      exact h2xx (by omega)
    simp [fetch_market_data_batch, max_retries, fetchLoop, h0, h200, h429]
  · intro results
    induction results with
    | nil => intro i h; exact absurd h (by simp)
    | cons hd tl ih =>
      intro i h hget
      cases i with
      | zero =>
        simp only [List.get] at hget
        simp [ingestCollect, hget]
      | succ j =>
        have hj : j < tl.length := by simpa using h
        have := ih j hj (by simpa using hget)
        simp only [ingestCollect, List.flatMap_cons] at this ⊢
        simp [List.eraseIdx, this]

/-- Witness for C7: an always-429 provider, a hard-500 provider, and a
three-batch run whose middle batch failed. -/
theorem fetch_retry_graceful_witness :
    fetch_market_data_batch (fun _ => some (429, ([] : List ℕ))) = ([], [5, 10, 20]) ∧
    fetch_market_data_batch (fun _ => some (500, [3])) = ([], []) ∧
    ingestCollect [[1, 2], [], [3]] = ingestCollect (([[1, 2], [], [3]] : List (List ℕ)).eraseIdx 1) :=
  ⟨(fetch_retry_graceful (fun _ => some (429, ([] : List ℕ)))).1 (fun a _ => ⟨[], rfl⟩),
   (fetch_retry_graceful (fun _ => some (500, [3]))).2.1 500 [3] rfl (by decide) (by decide),
   (fetch_retry_graceful (fun _ => some (429, ([] : List ℕ)))).2.2 [[1, 2], [], [3]] 1
     (by decide) rfl⟩

-- ### C10: an all-failed ingestion run still reports HTTP 200

/-- C10 (counterexample): an ingestion invocation in which every batch
failed and zero records were collected returns HTTP status 200 — the
success status code — so a failed scheduled run is not distinguishable
from success by a non-zero / fatal result. -/
theorem ingestion_all_failed_reports_200 :
    processIngestionResult (ingestCollect ([[], []] : List (List ℕ)))
      "raw_prices_20240101.json" true = ("Warning: No data collected.", 200) := rfl

/-- C10 (amended): when every batch failed and zero records were
collected, the bronze cloud function returns the warning message
"Warning: No data collected." with HTTP status 200 (only the message
text, not the status, distinguishes it from success), and the silver
cloud function swallows every exception of its body and returns normally
(HTTP 200) whether the body succeeded or failed. -/
theorem ingestion_all_failed_warning {α : Type} (batchResults : List (List α))
    (name : String) (ok : Bool) :
    (ingestCollect batchResults = [] →
      processIngestionResult (ingestCollect batchResults) name ok
        = ("Warning: No data collected.", 200)) ∧
    ∀ e : Except String Unit, processDataCleaningReturn e = 200 := by
  constructor
  · intro h
    rw [h]
    rfl
  · intro e
    cases e <;> rfl

/-- Witness for C10's amended statement: two failed batches and a failing
silver body. -/
theorem ingestion_all_failed_warning_witness :
    processIngestionResult (ingestCollect ([[], []] : List (List ℕ)))
      "raw_prices_20240101.json" true = ("Warning: No data collected.", 200) ∧
    processDataCleaningReturn (Except.error "boom") = 200 :=
  ⟨(ingestion_all_failed_warning ([[], []] : List (List ℕ)) "raw_prices_20240101.json" true).1 rfl,
   (ingestion_all_failed_warning ([[], []] : List (List ℕ)) "raw_prices_20240101.json" true).2
     (Except.error "boom")⟩

-- ### C8: the normalizer is pure up to its injected timestamp

lemma process_cleaning_factor (raws : List RawRecord) (t : ℕ) :
    process_cleaning raws t
      = (List.insertionSort newerFields (raws.map cleanFields).dedup).map
          (fun b => { toCanonicalFields := b, processed_at := t }) := by
  unfold process_cleaning
  have hinj : Function.Injective
      (fun b => ({ toCanonicalFields := b, processed_at := t } : CanonicalRecord)) := by
    intro a b hab
    exact congrArg CanonicalRecord.toCanonicalFields hab
  have hmap : raws.map (fun r => canonicalOf r t)
      = (raws.map cleanFields).map
          (fun b => ({ toCanonicalFields := b, processed_at := t } : CanonicalRecord)) := by
    rw [List.map_map]
    rfl
  rw [hmap, List.dedup_map_of_injective hinj,
    ← List.map_insertionSort newerFields newerSource
      (fun b => ({ toCanonicalFields := b, processed_at := t } : CanonicalRecord))
      ((raws.map cleanFields).dedup) (fun a _ b _ => Iff.rfl)]

lemma process_data_cleaning_factor (raws : List RawRecord) (t : ℕ) :
    process_data_cleaning raws t
      = (List.insertionSort newerFieldsCloud (raws.map cloudCleanFields).dedup).map
          (fun b => { toCloudCanonicalFields := b, ingested_at := t }) := by
  unfold process_data_cleaning
  have hinj : Function.Injective
      (fun b => ({ toCloudCanonicalFields := b, ingested_at := t } : CloudCanonicalRecord)) := by
    intro a b hab
    exact congrArg CloudCanonicalRecord.toCloudCanonicalFields hab
  have hmap : raws.map (fun r => cloudCanonicalOf r t)
      = (raws.map cloudCleanFields).map
          (fun b => ({ toCloudCanonicalFields := b, ingested_at := t } : CloudCanonicalRecord)) := by
    rw [List.map_map]
    rfl
  rw [hmap, List.dedup_map_of_injective hinj,
    ← List.map_insertionSort newerFieldsCloud newerSourceCloud
      (fun b => ({ toCloudCanonicalFields := b, ingested_at := t } : CloudCanonicalRecord))
      ((raws.map cloudCleanFields).dedup) (fun a _ b _ => Iff.rfl)]

/-- C8 (counterexample): the cloud normalizer stamps ingested_at with the
time of the normalization run, so normalizing the same raw payload twice
(at times 0 and 1) yields record sets that disagree on ingested_at — not
only on processed_at as claimed (the cloud output has no processed_at
column at all). -/
theorem cloud_clean_runs_differ :
    process_data_cleaning [sampleRaw1] 0 ≠ process_data_cleaning [sampleRaw1] 1 := by
  intro h
  have h2 := congrArg (List.map (fun c => c.ingested_at)) h
  rw [process_data_cleaning_factor, process_data_cleaning_factor] at h2
  simp at h2

/-- C8 (amended): every business column of the normalized output is a
pure function of the raw payload. Normalizing the same payload at two
different times yields, for the local normalizer, record sets that agree
on every column except the injected processed_at; the cloud normalizer
instead injects the run time as ingested_at, so its two runs agree on
every column except ingested_at. -/
theorem clean_pure_except_injected_time (raws : List RawRecord) (t₁ t₂ : ℕ) :
    (process_cleaning raws t₁).map (fun c => c.toCanonicalFields)
      = (process_cleaning raws t₂).map (fun c => c.toCanonicalFields) ∧
    (process_data_cleaning raws t₁).map (fun c => c.toCloudCanonicalFields)
      = (process_data_cleaning raws t₂).map (fun c => c.toCloudCanonicalFields) := by
  constructor
  · rw [process_cleaning_factor, process_cleaning_factor, List.map_map, List.map_map]
    rfl
  · rw [process_data_cleaning_factor, process_data_cleaning_factor, List.map_map, List.map_map]
    rfl

-- ### Helper lemmas for the gold merge and prune

lemma mem_of_mem_pruneAsset {n : ℕ} {rows : List GoldRow} {r : GoldRow}
    (h : r ∈ pruneAsset n rows) : r ∈ rows :=
  (List.perm_insertionSort newerRow rows).subset ((List.take_sublist n _).subset h)

lemma coin_of_mem_filter {rows : List GoldRow} {c : String} {r : GoldRow}
    (h : r ∈ rows.filter (fun r => r.coin_id == c)) : r.coin_id = c := by
  have hb := List.of_mem_filter h
  simpa using hb

lemma coin_of_mem_chunk {n : ℕ} {L : List GoldRow} {c : String} {r : GoldRow}
    (h : r ∈ pruneAsset n (L.filter (fun r => r.coin_id == c))) : r.coin_id = c :=
  coin_of_mem_filter (mem_of_mem_pruneAsset h)

lemma nodup_pruneAsset {n : ℕ} {rows : List GoldRow} (h : rows.Nodup) :
    (pruneAsset n rows).Nodup :=
  List.Nodup.sublist (List.take_sublist n _)
    ((List.perm_insertionSort newerRow rows).nodup_iff.2 h)

lemma pruneAsset_boundary {n : ℕ} {rows : List GoldRow} {r d : GoldRow}
    (hr : r ∈ pruneAsset n rows) (hd : d ∈ rows) (hdnot : d ∉ pruneAsset n rows) :
    d.source_updated_at ≤ r.source_updated_at := by
  unfold pruneAsset at hr hdnot
  have hdS : d ∈ List.insertionSort newerRow rows :=
    (List.mem_insertionSort newerRow).2 hd
  have hdapp : d ∈ (List.insertionSort newerRow rows).take n
      ++ (List.insertionSort newerRow rows).drop n := by
    rw [List.take_append_drop]
    exact hdS
  cases List.mem_append.1 hdapp with
  | inl htake => exact absurd htake hdnot
  | inr hdrop =>
    have hpair : List.Pairwise newerRow (List.insertionSort newerRow rows) :=
      List.sorted_insertionSort newerRow rows
    rw [← List.take_append_drop n (List.insertionSort newerRow rows)] at hpair
    exact (List.pairwise_append.1 hpair).2.2 r hr d hdrop

lemma filter_flatMap' {α β : Type} (l : List α) (f : α → List β) (p : β → Bool) :
    (l.flatMap f).filter p = l.flatMap (fun a => (f a).filter p) := by
  induction l with
  | nil => rfl
  | cons a l ih => simp [List.flatMap_cons, List.filter_append, ih]

lemma flatMap_eq_nil_of_forall {α β : Type} {l : List α} {f : α → List β}
    (h : ∀ x ∈ l, f x = []) : l.flatMap f = [] := by
  induction l with
  | nil => rfl
  | cons a l ih =>
    rw [List.flatMap_cons, h a (List.mem_cons_self a l), List.nil_append]
    exact ih (fun x hx => h x (List.mem_cons_of_mem a hx))

lemma flatMap_ite_single {β : Type} (c : String) (xs : List β) :
    ∀ l : List String, l.Nodup → c ∈ l →
      l.flatMap (fun d => if d = c then xs else []) = xs := by
  intro l
  induction l with
  | nil => intro _ hc; cases hc
  | cons a l ih =>
    intro hn hc
    by_cases hac : a = c
    · subst hac
      rw [List.flatMap_cons, if_pos rfl, flatMap_eq_nil_of_forall, List.append_nil]
      intro x hx
      rw [if_neg]
      exact fun he => (List.Nodup.not_mem hn) (he ▸ hx)
    · rw [List.flatMap_cons, if_neg hac, List.nil_append]
      exact ih hn.of_cons ((List.mem_cons.1 hc).resolve_left (fun he => hac he.symm))

lemma merge_and_prune_filter (existing incoming : List GoldRow) (n : ℕ) (c : String) :
    (merge_and_prune existing incoming n).filter (fun r => r.coin_id == c)
      = if c ∈ assetIds (dedup_union existing incoming)
        then pruneAsset n ((dedup_union existing incoming).filter (fun r => r.coin_id == c))
        else [] := by
  unfold merge_and_prune
  rw [filter_flatMap']
  have hterm : ∀ d ∈ assetIds (dedup_union existing incoming),
      (pruneAsset n ((dedup_union existing incoming).filter
          (fun r => r.coin_id == d))).filter (fun r => r.coin_id == c)
        = if d = c
          then pruneAsset n ((dedup_union existing incoming).filter (fun r => r.coin_id == c))
          else [] := by
    intro d _
    by_cases hdc : d = c
    · subst hdc
      rw [if_pos rfl]
      apply List.filter_eq_self.2
      intro r hr
      simp [coin_of_mem_chunk hr]
    · rw [if_neg hdc]
      apply List.filter_eq_nil_iff.2
      intro r hr
      simp [coin_of_mem_chunk hr, hdc]
  rw [List.flatMap_congr hterm]
  by_cases hc : c ∈ assetIds (dedup_union existing incoming)
  · rw [if_pos hc, flatMap_ite_single c _ (assetIds (dedup_union existing incoming))
      (show (assetIds (dedup_union existing incoming)).Nodup from List.nodup_dedup _) hc]
  · rw [if_neg hc]
    apply flatMap_eq_nil_of_forall
    intro d hd
    rw [if_neg]
    exact fun he => hc (he ▸ hd)

lemma nodup_merge_and_prune (existing incoming : List GoldRow) (n : ℕ) :
    (merge_and_prune existing incoming n).Nodup := by
  unfold merge_and_prune
  apply List.nodup_flatMap.2
  constructor
  · intro c _
    exact nodup_pruneAsset (List.Nodup.filter _ (List.nodup_dedup _))
  · refine List.Pairwise.imp ?_ (List.nodup_dedup _)
    intro a b hab
    intro x hxa hxb
    exact hab ((coin_of_mem_chunk hxa).symm.trans (coin_of_mem_chunk hxb))

lemma eq_replicate_map_coin {c : String} {rows : List GoldRow}
    (h : ∀ r ∈ rows, r.coin_id = c) :
    rows.map (fun r => r.coin_id) = List.replicate rows.length c := by
  have h2 : rows.map (fun r => r.coin_id)
      = List.replicate (rows.map (fun r => r.coin_id)).length c := by
    apply List.eq_replicate_length.2
    intro b hb
    obtain ⟨r, hr, rfl⟩ := List.mem_map.1 hb
    exact h r hr
  rw [h2, List.length_map]

lemma dedup_replicate_append {c : String} {rest : List String} {k : ℕ} (hk : 0 < k)
    (hc : c ∉ rest) :
    (List.replicate k c ++ rest).dedup = c :: rest.dedup := by
  induction k with
  | zero => exact absurd hk (lt_irrefl 0)
  | succ k ih =>
    rcases Nat.eq_zero_or_pos k with h0 | hpos
    · subst h0
      have h1 : List.replicate 1 c ++ rest = c :: rest := by simp
      rw [h1, List.dedup_cons_of_not_mem hc]
    · rw [List.replicate_succ, List.cons_append,
        List.dedup_cons_of_mem
          (List.mem_append_left rest (List.mem_replicate.2 ⟨hpos.ne', rfl⟩))]
      exact ih hpos

lemma dedup_flatMap_replicate {β : Type} (g : String → List β) :
    ∀ cs : List String, cs.Nodup →
      (cs.flatMap (fun c => List.replicate (g c).length c)).dedup
        = cs.filter (fun c => !(g c).isEmpty) := by
  intro cs
  induction cs with
  | nil => intro _; rfl
  | cons a cs ih =>
    intro hn
    have harest : a ∉ cs.flatMap (fun c => List.replicate (g c).length c) := by
      intro hmem
      obtain ⟨c, hcs, hrep⟩ := List.mem_flatMap.1 hmem
      obtain ⟨-, rfl⟩ := List.mem_replicate.1 hrep
      exact (List.Nodup.not_mem hn) hcs
    rw [List.flatMap_cons]
    rcases Nat.eq_zero_or_pos (g a).length with h0 | hpos
    · have hemp : (g a).isEmpty = true := List.isEmpty_iff.2 (List.length_eq_zero.1 h0)
      rw [h0, List.replicate_zero, List.nil_append, ih hn.of_cons,
        List.filter_cons_of_neg (by simp [hemp])]
    · have hemp : (g a).isEmpty = false := by
        cases he : (g a).isEmpty
        · rfl
        · exact absurd (List.length_eq_zero.2 (List.isEmpty_iff.1 he)) hpos.ne'
      rw [dedup_replicate_append hpos harest, ih hn.of_cons,
        List.filter_cons_of_pos (by simp [hemp])]

lemma flatMap_eq_filter_nonempty {β γ : Type} (f : γ → List β) :
    ∀ l : List γ, l.flatMap f = (l.filter (fun c => !(f c).isEmpty)).flatMap f := by
  intro l
  induction l with
  | nil => rfl
  | cons a l ih =>
    cases heq : (f a).isEmpty with
    | true =>
      have hfa : f a = [] := List.isEmpty_iff.1 heq
      rw [List.flatMap_cons, hfa, List.nil_append, ih,
        List.filter_cons_of_neg (by simp [heq])]
    | false =>
      rw [List.filter_cons_of_pos (by simp [heq]), List.flatMap_cons, List.flatMap_cons, ← ih]

-- ### C2: merge_and_prune respects the retention bound per asset

/-- C2: after merge_and_prune, every asset_id has at most retention_n
records — exactly min retention_n (number of that asset's deduplicated
merged records) — every kept record comes from the union of existing and
incoming, and every record of that asset that was merged but dropped is
no more recent (by source_updated_at) than any kept record of the same
asset. -/
theorem merge_and_prune_retention (existing incoming : List GoldRow) (n : ℕ) (c : String) :
    ((merge_and_prune existing incoming n).filter (fun r => r.coin_id == c)).length ≤ n ∧
    ((merge_and_prune existing incoming n).filter (fun r => r.coin_id == c)).length
      = min n (((dedup_union existing incoming).filter (fun r => r.coin_id == c)).length) ∧
    (∀ r ∈ merge_and_prune existing incoming n, r ∈ existing ++ incoming) ∧
    ∀ r ∈ merge_and_prune existing incoming n, ∀ d ∈ dedup_union existing incoming,
      r.coin_id = c → d.coin_id = c → d ∉ merge_and_prune existing incoming n →
      d.source_updated_at ≤ r.source_updated_at := by
  have hmin : ((merge_and_prune existing incoming n).filter (fun r => r.coin_id == c)).length
      = min n (((dedup_union existing incoming).filter (fun r => r.coin_id == c)).length) := by
    rw [merge_and_prune_filter]
    split_ifs with hc
    · unfold pruneAsset
      rw [List.length_take, List.length_insertionSort]
    · have hnil : (dedup_union existing incoming).filter (fun r => r.coin_id == c) = [] := by
        apply List.filter_eq_nil_iff.2
        intro r hr hbeq
        apply hc
        have hrc : r.coin_id = c := by simpa using hbeq
        exact List.mem_dedup.2 (List.mem_map.2 ⟨r, hr, hrc⟩)
      rw [hnil]
      simp
  refine ⟨?_, hmin, ?_, ?_⟩
  · rw [hmin]
    exact min_le_left _ _
  · intro r hr
    obtain ⟨d, _, hrc⟩ := List.mem_flatMap.1 hr
    exact List.mem_dedup.1 (List.mem_filter.1 (mem_of_mem_pruneAsset hrc)).1
  · intro r hr d hd hrc hdc hdnot
    have hcA : c ∈ assetIds (dedup_union existing incoming) :=
      List.mem_dedup.2 (List.mem_map.2 ⟨d, hd, hdc⟩)
    have hrfil : r ∈ (merge_and_prune existing incoming n).filter
        (fun r => r.coin_id == c) :=
      List.mem_filter.2 ⟨hr, by simp [hrc]⟩
    rw [merge_and_prune_filter, if_pos hcA] at hrfil
    have hdfil : d ∈ (dedup_union existing incoming).filter (fun r => r.coin_id == c) :=
      List.mem_filter.2 ⟨hd, by simp [hdc]⟩
    apply pruneAsset_boundary hrfil hdfil
    intro hdchunk
    exact hdnot (List.mem_flatMap.2 ⟨c, hcA, hdchunk⟩)

/-- Witness for C2 at retention 1: of two bitcoin rows with source times
10 (sampleRowA) and 20 (sampleRowC), merge_and_prune keeps exactly one
row and the dropped row is the older one. -/
theorem merge_and_prune_retention_witness :
    ((merge_and_prune [sampleRowA] [sampleRowC] 1).filter
      (fun r => r.coin_id == "bitcoin")).length ≤ 1 ∧
    sampleRowA.source_updated_at ≤ sampleRowC.source_updated_at :=
  ⟨(merge_and_prune_retention [sampleRowA] [sampleRowC] 1 "bitcoin").1,
   (merge_and_prune_retention [sampleRowA] [sampleRowC] 1 "bitcoin").2.2.2
     sampleRowC (by decide) sampleRowA (by decide) rfl rfl (by decide)⟩

-- ### C3: the merge step deduplicates by full row, not by natural key

/-- C3 (counterexample): two merged records that share the natural key
(asset_id, source_updated_at) but differ in processed_at BOTH survive the
merge step — `SELECT DISTINCT *` removes exact duplicate rows only, so it
is false that exactly one record with a given key pair survives. -/
theorem dedup_keeps_key_duplicates :
    sampleRowA ∈ merge_and_prune [sampleRowA] [sampleRowB] RETENTION_N ∧
    sampleRowB ∈ merge_and_prune [sampleRowA] [sampleRowB] RETENTION_N ∧
    sampleRowA ≠ sampleRowB ∧
    sampleRowA.coin_id = sampleRowB.coin_id ∧
    sampleRowA.source_updated_at = sampleRowB.source_updated_at := by
  refine ⟨by decide, by decide, by decide, rfl, rfl⟩

/-- C3 (amended): the merge step deduplicates the union of existing and
incoming records by full-row identity: the deduplicated union contains
each distinct row exactly once and contains exactly the rows of the
union, so records sharing (asset_id, source_updated_at) but differing in
any other column (such as processed_at) all survive. -/
theorem dedup_full_row_only (existing incoming : List GoldRow) :
    (dedup_union existing incoming).Nodup ∧
    ∀ r : GoldRow, r ∈ dedup_union existing incoming ↔ r ∈ existing ++ incoming :=
  ⟨List.nodup_dedup _, fun _ => List.mem_dedup⟩

-- ### C6: merge_and_prune is idempotent

/-- C6: re-applying merge_and_prune to its own result with an empty
incoming set returns the result unchanged. -/
theorem merge_and_prune_idempotent (existing incoming : List GoldRow) (n : ℕ) :
    merge_and_prune (merge_and_prune existing incoming n) [] n
      = merge_and_prune existing incoming n := by
  have hnodup : (merge_and_prune existing incoming n).Nodup :=
    nodup_merge_and_prune existing incoming n
  have hdu : dedup_union (merge_and_prune existing incoming n) []
      = merge_and_prune existing incoming n := by
    unfold dedup_union
    rw [List.append_nil]
    exact List.dedup_eq_self.2 hnodup
  show (assetIds (dedup_union (merge_and_prune existing incoming n) [])).flatMap
      (fun c => pruneAsset n
        ((dedup_union (merge_and_prune existing incoming n) []).filter
          (fun r => r.coin_id == c)))
    = merge_and_prune existing incoming n
  rw [hdu]
  have hmapR : (merge_and_prune existing incoming n).map (fun r => r.coin_id)
      = (assetIds (dedup_union existing incoming)).flatMap
          (fun c => List.replicate
            (pruneAsset n ((dedup_union existing incoming).filter
              (fun r => r.coin_id == c))).length c) := by
    show ((assetIds (dedup_union existing incoming)).flatMap
        (fun c => pruneAsset n ((dedup_union existing incoming).filter
          (fun r => r.coin_id == c)))).map (fun r => r.coin_id) = _
    rw [List.map_flatMap]
    apply List.flatMap_congr
    intro c _
    exact eq_replicate_map_coin (fun r hr => coin_of_mem_chunk hr)
  have hassetR : assetIds (merge_and_prune existing incoming n)
      = (assetIds (dedup_union existing incoming)).filter
          (fun c => !(pruneAsset n ((dedup_union existing incoming).filter
            (fun r => r.coin_id == c))).isEmpty) := by
    show ((merge_and_prune existing incoming n).map (fun r => r.coin_id)).dedup = _
    rw [hmapR]
    exact dedup_flatMap_replicate _ _ (List.nodup_dedup _)
  rw [hassetR]
  have hfix : ∀ c ∈ (assetIds (dedup_union existing incoming)).filter
      (fun c => !(pruneAsset n ((dedup_union existing incoming).filter
        (fun r => r.coin_id == c))).isEmpty),
      pruneAsset n ((merge_and_prune existing incoming n).filter (fun r => r.coin_id == c))
        = pruneAsset n ((dedup_union existing incoming).filter (fun r => r.coin_id == c)) := by
    intro c hcf
    have hc : c ∈ assetIds (dedup_union existing incoming) := (List.mem_filter.1 hcf).1
    rw [merge_and_prune_filter, if_pos hc]
    unfold pruneAsset
    have hsorted : List.Pairwise newerRow
        ((List.insertionSort newerRow ((dedup_union existing incoming).filter
          (fun r => r.coin_id == c))).take n) :=
      List.Pairwise.sublist (List.take_sublist _ _) (List.sorted_insertionSort newerRow _)
    rw [List.Sorted.insertionSort_eq hsorted, List.take_take, min_self]
  rw [List.flatMap_congr hfix]
  exact (flatMap_eq_filter_nonempty _ _).symm

end FinData
